import Mathlib

/-!
# coupledPolyPatch

A shallow embedding of `Foam::coupledPolyPatch`
(`src/OpenFOAM/meshes/polyMesh/polyPatches/basic/coupled/coupledPolyPatch.H`).

The header holds the private transform fields, the inline accessors
`coupled`, `separated`, `separation`, `parallel`, `forwardT`, `reverseT`
and the declarations (with default arguments) of the static geometric helpers.
The scalar type is a parameter `S`: the accessors never inspect a component.
-/

namespace Foam

/-- Three-component value, the element type of a `vectorField`. -/
structure Vector (S : Type) where
  x : S
  y : S
  z : S
deriving DecidableEq, Repr

/-- Nine-component value, the element type of a `tensorField`. -/
structure Tensor (S : Type) where
  xx : S
  xy : S
  xz : S
  yx : S
  yy : S
  yz : S
  zx : S
  zy : S
  zz : S
deriving DecidableEq, Repr

instance {S : Type} [Zero S] : Zero (Vector S) := ⟨⟨0, 0, 0⟩⟩

instance {S : Type} [Sub S] : Sub (Vector S) :=
  ⟨fun a b => ⟨a.x - b.x, a.y - b.y, a.z - b.z⟩⟩

/-- The private data of the class (header lines 68-77): `separation_`,
`forwardT_`, `reverseT_`. A field (`vectorField`, `tensorField`) is the list of
its entries. -/
structure coupledPolyPatch (S : Type) where
  separation_ : List (Vector S)
  forwardT_ : List (Tensor S)
  reverseT_ : List (Tensor S)

namespace coupledPolyPatch

/-- The enumeration `transformType` (header lines 57-62). -/
inductive transformType where
  | UNKNOWN
  | ROTATIONAL
  | TRANSLATIONAL
deriving DecidableEq, Repr

variable {S : Type}

/-- Source: `virtual bool coupled() const { return true; }` -/
def coupled (_p : coupledPolyPatch S) : Bool := true

/-- Source: `bool separated() const { return separation_.size(); }`: the size is
converted to `bool`, which is `size != 0`. -/
def separated (p : coupledPolyPatch S) : Bool := p.separation_.length != 0

/-- Source: `const vectorField& separation() const { return separation_; }` -/
def separation (p : coupledPolyPatch S) : List (Vector S) := p.separation_

/-- Source: `bool parallel() const { return forwardT_.empty(); }` -/
def parallel (p : coupledPolyPatch S) : Bool := p.forwardT_.isEmpty

/-- Source: `const tensorField& forwardT() const { return forwardT_; }` -/
def forwardT (p : coupledPolyPatch S) : List (Tensor S) := p.forwardT_

/-- Source: `const tensorField& reverseT() const { return reverseT_; }` -/
def reverseT (p : coupledPolyPatch S) : List (Tensor S) := p.reverseT_

/-- A `face` is the ordered list of its point labels; `f[0]` is the anchor. -/
abbrev face := List Nat

/-- The arguments of `calcTransformTensors` (header lines 96-105), all seven
resolved. -/
structure transformArgs (S : Type) where
  Cf : List (Vector S)
  Cr : List (Vector S)
  nf : List (Vector S)
  nr : List (Vector S)
  smallDist : List S
  absTol : S
  transform : transformType

/-- The ways a C++ call may leave out the trailing arguments of
`calcTransformTensors`: both, only the transform, or none. -/
inductive optionalArgs (S : Type) where
  | omitted
  | withTol (absTol : S)
  | withTolAndTransform (absTol : S) (transform : transformType)

/-- The declaration's default arguments: `const scalar absTol = matchTol,
const transformType = UNKNOWN`. `matchTol` is the current value of the static
data member. -/
def optionalArgs.resolve (matchTol : S) : optionalArgs S → S × transformType
  | .omitted => (matchTol, .UNKNOWN)
  | .withTol a => (a, .UNKNOWN)
  | .withTolAndTransform a t => (a, t)

/-- A call of `calcTransformTensors` as the header declares it: five mandatory
arguments and the optional tail. The body lives in `coupledPolyPatch.C` and is
the parameter `body`. -/
def calcTransformTensors {β : Type} (body : transformArgs S → β) (matchTol : S)
    (Cf Cr nf nr : List (Vector S)) (smallDist : List S) (opt : optionalArgs S) : β :=
  body ⟨Cf, Cr, nf, nr, smallDist, (opt.resolve matchTol).1, (opt.resolve matchTol).2⟩

/-- The call the specification describes for omitted arguments: `absTol` is the
module-wide relative match tolerance and the hint is `Unknown`
(auto-detection). -/
def calcTransformTensorsSpecDefault {β : Type} (body : transformArgs S → β) (matchTol : S)
    (Cf Cr nf nr : List (Vector S)) (smallDist : List S) : β :=
  body ⟨Cf, Cr, nf, nr, smallDist, matchTol, .UNKNOWN⟩

/-- Modelled from the spec: the body of `calcTransformTensors` lives in
`coupledPolyPatch.C`, which is not part of the sources; this is the
classification procedure of the specification's TransformClassifier. With hint
`Unknown` the rotational classification is attempted first and the
translational one only when it did not succeed; a forced hint attempts only its
own branch; a failed verification gives `Unknown`. The two consistency checks
(tensor arithmetic on the normals and centres) are the parameters
`rotationalOK` and `translationalOK`. The second component lists the
classifications attempted, in order. -/
def classifyTransform (rotationalOK translationalOK : transformArgs S → Bool)
    (a : transformArgs S) : transformType × List transformType :=
  match a.transform with
  | .UNKNOWN =>
    if rotationalOK a then (.ROTATIONAL, [.ROTATIONAL])
    else if translationalOK a then (.TRANSLATIONAL, [.ROTATIONAL, .TRANSLATIONAL])
    else (.UNKNOWN, [.ROTATIONAL, .TRANSLATIONAL])
  | .ROTATIONAL =>
    if rotationalOK a then (.ROTATIONAL, [.ROTATIONAL]) else (.UNKNOWN, [.ROTATIONAL])
  | .TRANSLATIONAL =>
    if translationalOK a then (.TRANSLATIONAL, [.TRANSLATIONAL])
    else (.UNKNOWN, [.TRANSLATIONAL])

/-- Modelled from the spec: the body of `whichPatch` lives in
`coupledPolyPatch.C`, which is not part of the sources. A monotonic range
search over the patch starts: patch `i` holds the faces from `patchStarts[i]`
up to (not including) the next start, the last patch everything from its
start on. `i` is the index of the head of the list. -/
def whichPatchFrom (faceI : Int) : Nat → List Int → Option Nat
  | _, [] => none
  | i, [s] => if s ≤ faceI then some i else none
  | i, s :: s' :: rest =>
    if s ≤ faceI ∧ faceI < s' then some i else whichPatchFrom faceI (i + 1) (s' :: rest)

/-- Modelled from the spec: `whichPatch(patchStarts, faceI)`, the range search
started at patch 0 (the body is in `coupledPolyPatch.C`, not part of the
sources). -/
def whichPatch (patchStarts : List Int) (faceI : Int) : Option Nat :=
  whichPatchFrom faceI 0 patchStarts

section Geometry

variable [LinearOrder S] [Sub S]

/-- The distances from the centre `cc` to the vertices of a face, in vertex
order; `none` when a label is outside the point field. `mag` is the Euclidean
norm of the library (`Foam::mag`), a parameter here. -/
def vertexDists (mag : Vector S → S) (points : List (Vector S)) (cc : Vector S) :
    face → Option (List S)
  | [] => some []
  | v :: vs =>
    match points[v]?, vertexDists mag points cc vs with
    | some p, some ds => some (mag (p - cc) :: ds)
    | _, _ => none

/-- The largest entry of a list of scalars; undefined for the empty list. -/
def maxOf : List S → Option S
  | [] => none
  | d :: ds => some (ds.foldl max d)

/-- Modelled from the spec: the FaceToleranceEstimator for one face: the
maximum Euclidean distance from the centroid to any vertex of the face;
undefined (`none`) for a face with zero vertices. The body of `calcFaceTol` is
in `coupledPolyPatch.C`, not part of the sources. -/
def faceTol (mag : Vector S → S) (points : List (Vector S)) (f : face) (cc : Vector S) :
    Option S :=
  (vertexDists mag points cc f).bind maxOf

/-- Modelled from the spec: `calcFaceTol(faces, points, faceCentres)`, the
estimator applied elementwise; `none` on a contract violation (a face without
vertices, lists of different length). The body is in `coupledPolyPatch.C`, not
part of the sources. -/
def calcFaceTol (mag : Vector S → S) :
    List face → List (Vector S) → List (Vector S) → Option (List S)
  | [], _, [] => some []
  | f :: fs, points, cc :: ccs =>
    match faceTol mag points f cc, calcFaceTol mag fs points ccs with
    | some t, some ts => some (t :: ts)
    | _, _ => none
  | _, _, _ => none

/-- Two points coincide within tolerance: the Euclidean residual is at most
the supplied tolerance. -/
def withinTol (mag : Vector S → S) (tol : S) (p q : Vector S) : Bool :=
  decide (mag (p - q) ≤ tol)

/-- The cyclic shift of a vertex list by `r` positions: the vertex at position
`r` comes to position 0 (the vertex at position `i` goes to position
`(i - r) mod n`). This is the one shift used below, for the search of
`getRotation` and for the faces it is applied to. -/
def cyclicShift (f : face) (r : Nat) : face := f.rotate r

/-- Does cyclically shifting the vertex list of `f` by `r` positions bring a
vertex within `tol` of `anchor` to the first position? -/
def anchorAt (mag : Vector S → S) (points : List (Vector S)) (f : face)
    (anchor : Vector S) (tol : S) (r : Nat) : Bool :=
  match (cyclicShift f r).head? with
  | some v =>
    match points[v]? with
    | some p => withinTol mag tol p anchor
    | none => false
  | none => false

/-- Modelled from the spec: `getRotation(points, f, anchor, tol)`: the smallest
non-negative rotation `r`, below the vertex count, such that cyclically
shifting the vertex list by `r` positions brings its first vertex within
tolerance of the anchor; `none` when alignment fails. The body is in
`coupledPolyPatch.C`, not part of the sources. -/
def getRotation (mag : Vector S → S) (points : List (Vector S)) (f : face)
    (anchor : Vector S) (tol : S) : Option Nat :=
  (List.range f.length).find? (anchorAt mag points f anchor tol)

/-- The face that `cyclicShift` by `k` positions turns back into `f`: the
vertex at position `i` of `f` sits at position `(i + k) % n`. -/
def shiftFace (f : face) (k : Nat) : face :=
  cyclicShift f (f.length - k % f.length)

end Geometry

section Ordering

variable [LinearOrder S] [Sub S] [Mul S]

/-- One side of a coupling: the faces and the owning point collection. -/
structure faceGeometrySet (S : Type) where
  faces : List face
  points : List (Vector S)

/-- The ways an ordering fails: malformed input, or the list of owner faces
without exactly one aligned candidate. -/
inductive orderFailure where
  | contractViolation
  | unmatched (faces : List Nat)
deriving DecidableEq, Repr

/-- The result of an ordering: `faceMap` (new index for every old index),
`rotation` (alignment shift for every face) and the `changed` flag that
`order` returns. -/
structure faceCorrespondence where
  faceMap : List Nat
  rotation : List Nat
  changed : Bool
deriving DecidableEq, Repr

/-- The candidate faces whose centroid coincides with the owner centroid `oc`
within the tighter of the two faces' tolerances, scaled by `matchTol`. -/
def matchingCandidates (mag : Vector S → S) (matchTol : S) (oc : Vector S) (ot : S)
    (cands : List (Vector S × S)) : List Nat :=
  (List.range cands.length).filter fun j =>
    match cands[j]? with
    | some (cc, ct) => withinTol mag (matchTol * min ot ct) oc cc
    | none => false

/-- The match of one owner face: the single candidate within tolerance together
with its anchor alignment; `none` when no candidate or more than one is within
tolerance, or when no rotation aligns the anchors. -/
def alignFace (mag : Vector S → S) (matchTol : S) (ownerPoints : List (Vector S))
    (cand : faceGeometrySet S) (cands : List (Vector S × S))
    (o : face × Vector S × S) : Option (Nat × Nat) :=
  match matchingCandidates mag matchTol o.2.1 o.2.2 cands with
  | [j] =>
    match o.1.head?.bind (fun v => ownerPoints[v]?), cand.faces[j]?, cands[j]? with
    | some anchor, some g, some (_, ct) =>
      (getRotation mag cand.points g anchor (matchTol * min o.2.2 ct)).map (fun r => (j, r))
    | _, _, _ => none
  | _ => none

/-- The owner faces that failed: those without a match and those whose
candidate is also claimed by another owner face. -/
def failedFaces (ms : List (Option (Nat × Nat))) : List Nat :=
  (List.range ms.length).filter fun i =>
    match ms[i]? with
    | some (some (j, _)) => decide (1 < (ms.filterMap id).countP (fun m => m.1 == j))
    | _ => true

/-- The flag of `order`: starts `false` and is set as soon as a face does not
map to itself or needs a rotation. -/
def orderChanged (faceMap rotation : List Nat) : Bool :=
  (List.range faceMap.length).any fun i =>
    faceMap[i]? != some i || rotation[i]? != some 0

/-- Modelled from the spec: `order`, the FaceOrderer. The member is pure
virtual in this class and its implementations are not part of the sources.
Both sides must have the same number of faces; every owner face needs exactly
one candidate within tolerance and an anchor alignment, otherwise the failing
face indices are reported; `faceMap` sends the candidate's old index to the
owner's index, `rotation` holds the alignment shift per face, and `changed`
tells whether anything differs from the identity. `centre` stands for
`calcFaceCentres`, declared in the header only. -/
def order (mag : Vector S → S) (centre : List (Vector S) → face → Vector S) (matchTol : S)
    (owner cand : faceGeometrySet S) : Except orderFailure faceCorrespondence :=
  if owner.faces.length ≠ cand.faces.length then .error .contractViolation
  else
    let oc := owner.faces.map (centre owner.points)
    let cc := cand.faces.map (centre cand.points)
    match calcFaceTol mag owner.faces owner.points oc,
        calcFaceTol mag cand.faces cand.points cc with
    | some ot, some ct =>
      let ms := (owner.faces.zip (oc.zip ot)).map
        (alignFace mag matchTol owner.points cand (cc.zip ct))
      if failedFaces ms ≠ [] then .error (.unmatched (failedFaces ms))
      else
        let pairs := ms.filterMap id
        let faceMap := (List.range pairs.length).map (fun j => (pairs.map Prod.fst).indexOf j)
        let rotation := pairs.map Prod.snd
        .ok ⟨faceMap, rotation, orderChanged faceMap rotation⟩
    | _, _ => .error .contractViolation

end Ordering

/-- The integer square root, rounded down. -/
def isqrt (n : Nat) : Nat :=
  (List.range (n + 1)).foldl (fun r k => if k * k ≤ n then k else r) 0

/-- The Euclidean norm on integer vectors, rounded down to an integer; exact
on the vectors of the examples below (their squared length is a square). -/
def magInt (v : Vector Int) : Int :=
  isqrt (v.x * v.x + v.y * v.y + v.z * v.z).toNat

/-- The arithmetic mean of the vertices of a face with integer points, each
component rounded down; the centroid used in the examples below. -/
def centreInt (points : List (Vector Int)) (f : face) : Vector Int :=
  let ps := f.filterMap (fun v => points[v]?)
  ⟨(ps.map Vector.x).sum / ps.length, (ps.map Vector.y).sum / ps.length,
    (ps.map Vector.z).sum / ps.length⟩

/-! ## The inline accessors -/

/-- Claim C1: for every coupled patch state, `parallel()` returns true exactly
when `forwardT()` is empty (has zero entries), whatever the separation field
and the reverse tensor field hold. -/
theorem parallel_iff_forwardT_empty (p : coupledPolyPatch S) :
    (p.parallel = true ↔ p.forwardT.length = 0) ∧
    (p.parallel = true ↔ p.forwardT = []) ∧
    ∀ (sep : List (Vector S)) (rev : List (Tensor S)),
      parallel ⟨sep, p.forwardT_, rev⟩ = p.parallel := by
  refine ⟨?_, ?_, fun _ _ => rfl⟩
  · cases p with
    | mk sep fwd rev => cases fwd <;> simp [parallel, forwardT]
  · cases p with
    | mk sep fwd rev => cases fwd <;> simp [parallel, forwardT]

/-- Claim C2, as stated, fails: a separation field holding the single offset
`(0 0 0)` has no nonzero offset vector, and `separated()` still returns
true. -/
theorem separated_zero_offset_counterexample :
    separated (⟨[0], [], []⟩ : coupledPolyPatch Int) = true ∧
    ¬ ∃ v ∈ separation (⟨[0], [], []⟩ : coupledPolyPatch Int), v ≠ 0 := by
  refine ⟨rfl, ?_⟩
  simp [separation]

/-- Claim C2, amended: `separated()` returns true whenever the separation field
contains at least one nonzero offset vector. -/
theorem separated_of_nonzero_offset [Zero S] (p : coupledPolyPatch S)
    (h : ∃ v ∈ p.separation, v ≠ 0) : p.separated = true := by
  obtain ⟨v, hv, _⟩ := h
  cases p with
  | mk sep fwd rev =>
    cases sep with
    | nil => simp [separation] at hv
    | cons a t => simp [separated]

/-- A patch separated by the offset `(0 0 5)`: the hypothesis of
`separated_of_nonzero_offset` holds and `separated()` is true. -/
theorem separated_of_nonzero_offset_witness :
    (∃ v ∈ separation (⟨[⟨0, 0, 5⟩], [], []⟩ : coupledPolyPatch Int), v ≠ 0) ∧
    separated (⟨[⟨0, 0, 5⟩], [], []⟩ : coupledPolyPatch Int) = true :=
  ⟨⟨⟨0, 0, 5⟩, by simp [separation], by decide⟩,
    separated_of_nonzero_offset _ ⟨⟨0, 0, 5⟩, by simp [separation], by decide⟩⟩

/-- Claim C9: for every coupled patch, whatever its transform fields hold,
`coupled()` returns true. -/
theorem coupled_eq_true (p : coupledPolyPatch S) :
    p.coupled = true ∧
    ∀ (sep : List (Vector S)) (fwd rev : List (Tensor S)),
      coupled (⟨sep, fwd, rev⟩ : coupledPolyPatch S) = true :=
  ⟨rfl, fun _ _ _ => rfl⟩

/-- Claim C10: `separated()` returns true exactly when the separation field has
at least one entry; the answer depends neither on the values of the entries nor
on `forwardT`/`reverseT`; a field of zero vectors only still counts as
separated; and `parallel()` and `separated()` are independent: each of the four
combinations is the state of some patch. -/
theorem separated_iff_size_ne_zero [Zero S] (p : coupledPolyPatch S) :
    (p.separated = true ↔ p.separation.length ≠ 0) ∧
    (∀ q : coupledPolyPatch S,
      q.separation.length = p.separation.length → q.separated = p.separated) ∧
    (∀ (n : Nat) (fwd rev : List (Tensor S)),
      separated (⟨List.replicate (n + 1) 0, fwd, rev⟩ : coupledPolyPatch S) = true) ∧
    (∀ a b : Bool, ∃ q : coupledPolyPatch S, q.parallel = a ∧ q.separated = b) := by
  refine ⟨?_, ?_, ?_, ?_⟩
  · simp [separated, separation]
  · intro q hq
    simp only [separation] at hq
    simp [separated, hq]
  · intro n fwd rev
    simp [separated]
  · intro a b
    cases a <;> cases b
    · exact ⟨⟨[], [⟨0, 0, 0, 0, 0, 0, 0, 0, 0⟩], []⟩, rfl, rfl⟩
    · exact ⟨⟨[0], [⟨0, 0, 0, 0, 0, 0, 0, 0, 0⟩], []⟩, rfl, rfl⟩
    · exact ⟨⟨[], [], []⟩, rfl, rfl⟩
    · exact ⟨⟨[0], [], []⟩, rfl, rfl⟩

/-! ## calcTransformTensors -/

/-- Claim C7: calling `calcTransformTensors` without the two optional arguments
is the same as calling it with `absTol` equal to `matchTol` and with transform
hint `UNKNOWN`, whatever the body does; this is also the call the
specification describes. -/
theorem calcTransformTensors_default_args {β : Type} (body : transformArgs S → β)
    (matchTol : S) (Cf Cr nf nr : List (Vector S)) (smallDist : List S) :
    calcTransformTensors body matchTol Cf Cr nf nr smallDist .omitted =
      calcTransformTensors body matchTol Cf Cr nf nr smallDist
        (.withTolAndTransform matchTol .UNKNOWN) ∧
    calcTransformTensors body matchTol Cf Cr nf nr smallDist .omitted =
      calcTransformTensorsSpecDefault body matchTol Cf Cr nf nr smallDist :=
  ⟨rfl, rfl⟩

/-- Claim C6: with transform hint `UNKNOWN` the rotational classification is
attempted first and the translational one is attempted exactly when the
rotational one did not succeed; so when the rotational check passes the result
is rotational, whatever the translational check would say. -/
theorem calcTransformTensors_unknown_rotational_first
    (rotationalOK translationalOK : transformArgs S → Bool) (matchTol : S)
    (Cf Cr nf nr : List (Vector S)) (smallDist : List S) (opt : optionalArgs S)
    (h : (opt.resolve matchTol).2 = .UNKNOWN) :
    let a : transformArgs S := ⟨Cf, Cr, nf, nr, smallDist, (opt.resolve matchTol).1, .UNKNOWN⟩
    let res := calcTransformTensors (classifyTransform rotationalOK translationalOK)
      matchTol Cf Cr nf nr smallDist opt
    res.2.head? = some .ROTATIONAL ∧
    (.TRANSLATIONAL ∈ res.2 ↔ rotationalOK a = false) ∧
    (rotationalOK a = true → res.1 = .ROTATIONAL) := by
  intro a res
  have hres : res = classifyTransform rotationalOK translationalOK a := by
    simp only [res, a, calcTransformTensors, h]
  rw [hres]
  simp only [classifyTransform, a]
  cases hr : rotationalOK ⟨Cf, Cr, nf, nr, smallDist, (opt.resolve matchTol).1, .UNKNOWN⟩ <;>
    cases ht : translationalOK ⟨Cf, Cr, nf, nr, smallDist, (opt.resolve matchTol).1, .UNKNOWN⟩ <;>
    simp

/-- A call with the optional arguments left out, with both checks passing: the
hypothesis of `calcTransformTensors_unknown_rotational_first` holds and the
result is rotational after a single attempt. -/
theorem calcTransformTensors_unknown_rotational_first_witness :
    ((optionalArgs.omitted : optionalArgs Int).resolve 1).2 = .UNKNOWN ∧
    calcTransformTensors (classifyTransform (fun _ => true) (fun _ => true))
      (1 : Int) [⟨0, 0, 0⟩] [⟨0, 0, 5⟩] [⟨0, 0, 1⟩] [⟨0, 0, -1⟩] [1] .omitted =
      (.ROTATIONAL, [.ROTATIONAL]) :=
  ⟨rfl, by
    have h := calcTransformTensors_unknown_rotational_first (fun _ => true) (fun _ => true)
      (1 : Int) [⟨0, 0, 0⟩] [⟨0, 0, 5⟩] [⟨0, 0, 1⟩] [⟨0, 0, -1⟩] [1] .omitted rfl
    exact Prod.ext (h.2.2 rfl) rfl⟩

/-! ## whichPatch -/

/-- The range search finds a patch as soon as the first start is at most the
face label. -/
theorem whichPatchFrom_isSome (faceI : Int) :
    ∀ (l : List Int) (i : Nat) (s : Int), l.head? = some s → s ≤ faceI →
      ∃ k, whichPatchFrom faceI i l = some k
  | [], _, _, h, _ => by simp at h
  | [a], i, s, h, hs => by
    simp only [List.head?_cons, Option.some.injEq] at h
    subst h
    exact ⟨i, by simp [whichPatchFrom, hs]⟩
  | a :: b :: rest, i, s, h, hs => by
    simp only [List.head?_cons, Option.some.injEq] at h
    subst h
    by_cases hb : faceI < b
    · exact ⟨i, by simp [whichPatchFrom, hs, hb]⟩
    · obtain ⟨k, hk⟩ := whichPatchFrom_isSome faceI (b :: rest) (i + 1) b rfl (not_lt.mp hb)
      exact ⟨k, by simp [whichPatchFrom, hb, hk]⟩

/-- A patch found by the range search holds the face label: its start is at
most the label and it is the last patch or the next start is beyond the
label. -/
theorem whichPatchFrom_sound (faceI : Int) :
    ∀ (l : List Int) (i k : Nat), whichPatchFrom faceI i l = some k →
      ∃ m s, k = i + m ∧ l[m]? = some s ∧ s ≤ faceI ∧
        (m + 1 = l.length ∨ ∃ s', l[m + 1]? = some s' ∧ faceI < s')
  | [], _, _, h => by simp [whichPatchFrom] at h
  | [a], i, k, h => by
    by_cases ha : a ≤ faceI
    · simp only [whichPatchFrom, ha, if_true, Option.some.injEq] at h
      exact ⟨0, a, by omega, rfl, ha, Or.inl rfl⟩
    · simp [whichPatchFrom, ha] at h
  | a :: b :: rest, i, k, h => by
    by_cases hc : a ≤ faceI ∧ faceI < b
    · simp only [whichPatchFrom, hc, and_self, if_true, Option.some.injEq] at h
      exact ⟨0, a, by omega, rfl, hc.1, Or.inr ⟨b, by simp, hc.2⟩⟩
    · simp only [whichPatchFrom, hc, if_false] at h
      obtain ⟨m, s, hk, hm, hs, hnext⟩ := whichPatchFrom_sound faceI (b :: rest) (i + 1) k h
      refine ⟨m + 1, s, by omega, by simpa using hm, hs, ?_⟩
      rcases hnext with hl | ⟨s', hs', hlt⟩
      · exact Or.inl (by simpa using hl)
      · exact Or.inr ⟨s', by simpa using hs', hlt⟩

/-- In a non-decreasing list of patch starts at most one patch holds a given
face label. -/
theorem patchRange_unique (l : List Int) (faceI : Int) (hsorted : l.Sorted (· ≤ ·))
    (i j : Nat) (sj : Int)
    (hin : i + 1 = l.length ∨ ∃ s', l[i + 1]? = some s' ∧ faceI < s')
    (hj : l[j]? = some sj) (_hsj : sj ≤ faceI) (hij : i < j) : False := by
  obtain ⟨hjl, hjv⟩ := List.getElem?_eq_some_iff.mp hj
  rcases hin with hl | ⟨s', hs', hlt⟩
  · omega
  · obtain ⟨hil, hiv⟩ := List.getElem?_eq_some_iff.mp hs'
    have hle : s' ≤ sj := by
      rcases Nat.lt_or_ge (i + 1) j with h | h
      · have := (List.pairwise_iff_getElem.mp hsorted) (i + 1) j hil hjl h
        rw [hiv, hjv] at this
        exact this
      · have hEq : i + 1 = j := by omega
        subst hEq
        rw [hiv] at hjv
        exact le_of_eq hjv
    omega

/-- Claim C8: for every non-decreasing list of patch starts and every face
label not below the first start, `whichPatch` returns the index `i` with
`patchStarts[i] <= faceI` such that `i` is the last patch or
`faceI < patchStarts[i+1]`; that index is the only one with the property. -/
theorem whichPatch_spec (patchStarts : List Int) (faceI s0 : Int)
    (hsorted : patchStarts.Sorted (· ≤ ·))
    (hhead : patchStarts.head? = some s0) (hle : s0 ≤ faceI) :
    ∃ i s, whichPatch patchStarts faceI = some i ∧
      patchStarts[i]? = some s ∧ s ≤ faceI ∧
      (i + 1 = patchStarts.length ∨ ∃ s', patchStarts[i + 1]? = some s' ∧ faceI < s') ∧
      ∀ j sj, patchStarts[j]? = some sj → sj ≤ faceI →
        (j + 1 = patchStarts.length ∨ ∃ s', patchStarts[j + 1]? = some s' ∧ faceI < s') →
        j = i := by
  obtain ⟨k, hk⟩ := whichPatchFrom_isSome faceI patchStarts 0 s0 hhead hle
  obtain ⟨m, s, hkm, hm, hs, hnext⟩ := whichPatchFrom_sound faceI patchStarts 0 k hk
  have hkm' : k = m := by omega
  subst hkm'
  refine ⟨k, s, hk, hm, hs, hnext, ?_⟩
  intro j sj hj hsj hjn
  rcases Nat.lt_trichotomy j k with h | h | h
  · exact (patchRange_unique patchStarts faceI hsorted j k s hjn hm hs h).elim
  · exact h
  · exact (patchRange_unique patchStarts faceI hsorted k j sj hnext hj hsj h).elim

/-- Patch starts `0, 5, 5, 10` (patch 1 is empty) and face 5: the hypotheses of
`whichPatch_spec` hold and the face is in patch 2. -/
theorem whichPatch_spec_witness :
    [(0 : Int), 5, 5, 10].Sorted (· ≤ ·) ∧ whichPatch [0, 5, 5, 10] 5 = some 2 ∧
    ∃ i s, whichPatch [0, 5, 5, 10] 5 = some i ∧
      [(0 : Int), 5, 5, 10][i]? = some s ∧ s ≤ 5 ∧
      (i + 1 = [(0 : Int), 5, 5, 10].length ∨
        ∃ s', [(0 : Int), 5, 5, 10][i + 1]? = some s' ∧ (5 : Int) < s') ∧
      ∀ j sj, [(0 : Int), 5, 5, 10][j]? = some sj → sj ≤ 5 →
        (j + 1 = [(0 : Int), 5, 5, 10].length ∨
          ∃ s', [(0 : Int), 5, 5, 10][j + 1]? = some s' ∧ (5 : Int) < s') →
        j = i :=
  ⟨by decide, by decide,
    whichPatch_spec [0, 5, 5, 10] 5 0 (by decide) rfl (by decide)⟩

/-! ## calcFaceTol -/

/-- Folding `max` over a list gives an upper bound of the start value and of
every entry, and the result is the start value or one of the entries. -/
theorem foldl_max_spec [LinearOrder S] : ∀ (ds : List S) (d : S),
    d ≤ ds.foldl max d ∧ (∀ x ∈ ds, x ≤ ds.foldl max d) ∧
      (ds.foldl max d = d ∨ ds.foldl max d ∈ ds)
  | [], d => by simp
  | e :: es, d => by
    obtain ⟨h1, h2, h3⟩ := foldl_max_spec es (max d e)
    refine ⟨le_trans (le_max_left d e) h1, ?_, ?_⟩
    · intro x hx
      rcases List.mem_cons.mp hx with rfl | hx
      · exact le_trans (le_max_right d x) h1
      · exact h2 x hx
    · rcases h3 with h | h
      · rcases max_choice d e with hm | hm
        · left
          rw [List.foldl_cons, h, hm]
        · right
          rw [List.foldl_cons, h, hm]
          exact List.mem_cons_self _ _
      · right
        exact List.mem_cons_of_mem _ h

/-- The largest entry is an entry and bounds every entry. -/
theorem maxOf_spec [LinearOrder S] (ds : List S) (m : S) (h : maxOf ds = some m) :
    m ∈ ds ∧ ∀ x ∈ ds, x ≤ m := by
  cases ds with
  | nil => simp [maxOf] at h
  | cons d es =>
    simp only [maxOf, Option.some.injEq] at h
    obtain ⟨h1, h2, h3⟩ := foldl_max_spec es d
    rw [h] at h1 h2 h3
    refine ⟨?_, ?_⟩
    · rcases h3 with h3 | h3
      · rw [h3]
        exact List.mem_cons_self _ _
      · exact List.mem_cons_of_mem _ h3
    · intro x hx
      rcases List.mem_cons.mp hx with rfl | hx
      · exact h1
      · exact h2 x hx

/-- The distance list of a face holds exactly the distances from the centre to
the face's vertices, one per vertex. -/
theorem vertexDists_spec [Sub S] (mag : Vector S → S) (points : List (Vector S)) (cc : Vector S) :
    ∀ (f : face) (ds : List S), vertexDists mag points cc f = some ds →
      ds.length = f.length ∧
      ∀ d, d ∈ ds ↔ ∃ v ∈ f, ∃ p, points[v]? = some p ∧ d = mag (p - cc)
  | [], ds, h => by
    simp only [vertexDists, Option.some.injEq] at h
    subst h
    simp
  | v :: vs, ds, h => by
    simp only [vertexDists] at h
    cases hp : points[v]? with
    | none => simp [hp] at h
    | some p =>
      cases hr : vertexDists mag points cc vs with
      | none => simp [hp, hr] at h
      | some es =>
        simp only [hp, hr, Option.some.injEq] at h
        subst h
        obtain ⟨hl, hm⟩ := vertexDists_spec mag points cc vs es hr
        refine ⟨by simp [hl], ?_⟩
        intro d
        constructor
        · intro hd
          rcases List.mem_cons.mp hd with rfl | hd
          · exact ⟨v, List.mem_cons_self _ _, p, hp, rfl⟩
          · obtain ⟨w, hw, q, hq, hdq⟩ := (hm d).mp hd
            exact ⟨w, List.mem_cons_of_mem _ hw, q, hq, hdq⟩
        · rintro ⟨w, hw, q, hq, hdq⟩
          rcases List.mem_cons.mp hw with rfl | hw
          · rw [hp] at hq
            cases hq
            rw [hdq]
            exact List.mem_cons_self _ _
          · exact List.mem_cons_of_mem _ ((hm d).mpr ⟨w, hw, q, hq, hdq⟩)

/-- The distance list is defined when every label of the face is inside the
point field. -/
theorem vertexDists_isSome [Sub S] (mag : Vector S → S) (points : List (Vector S)) (cc : Vector S) :
    ∀ (f : face), (∀ v ∈ f, v < points.length) →
      ∃ ds, vertexDists mag points cc f = some ds
  | [], _ => ⟨[], rfl⟩
  | v :: vs, h => by
    obtain ⟨es, hes⟩ := vertexDists_isSome mag points cc vs
      (fun w hw => h w (List.mem_cons_of_mem _ hw))
    have hv : v < points.length := h v (List.mem_cons_self _ _)
    exact ⟨mag (points[v] - cc) :: es, by simp [vertexDists, hes, List.getElem?_eq_getElem hv]⟩

/-- The tolerance of a face with at least one vertex, all labels inside the
point field, is defined, bounds the distance from the centre to every vertex
and is the distance to one of them. -/
theorem faceTol_spec [LinearOrder S] [Sub S] (mag : Vector S → S) (points : List (Vector S)) (f : face)
    (cc : Vector S) (hne : f ≠ []) (hvalid : ∀ v ∈ f, v < points.length) :
    ∃ t, faceTol mag points f cc = some t ∧
      (∀ v ∈ f, ∀ p, points[v]? = some p → mag (p - cc) ≤ t) ∧
      ∃ v ∈ f, ∃ p, points[v]? = some p ∧ t = mag (p - cc) := by
  obtain ⟨ds, hds⟩ := vertexDists_isSome mag points cc f hvalid
  obtain ⟨hl, hm⟩ := vertexDists_spec mag points cc f ds hds
  cases ds with
  | nil =>
    exact absurd (List.length_eq_zero.mp (by simpa using hl.symm)) hne
  | cons d es =>
    have hmax : maxOf (d :: es) = some (es.foldl max d) := rfl
    obtain ⟨hin, hub⟩ := maxOf_spec (d :: es) _ hmax
    refine ⟨es.foldl max d, by simp [faceTol, hds, maxOf], ?_, ?_⟩
    · intro v hv p hp
      exact hub _ ((hm _).mpr ⟨v, hv, p, hp, rfl⟩)
    · exact (hm _).mp hin

/-- The tolerance field, face by face. -/
theorem calcFaceTol_aux [LinearOrder S] [Sub S] (mag : Vector S → S) (points : List (Vector S)) :
    ∀ (faces : List face) (faceCentres : List (Vector S)),
      faces.length = faceCentres.length → (∀ f ∈ faces, f ≠ []) →
      (∀ f ∈ faces, ∀ v ∈ f, v < points.length) →
      ∃ tols, calcFaceTol mag faces points faceCentres = some tols ∧
        tols.length = faces.length ∧
        ∀ (i : Nat) (f : face) (cc : Vector S), faces[i]? = some f → faceCentres[i]? = some cc →
          ∃ t, tols[i]? = some t ∧
            (∀ v ∈ f, ∀ p, points[v]? = some p → mag (p - cc) ≤ t) ∧
            ∃ v ∈ f, ∃ p, points[v]? = some p ∧ t = mag (p - cc)
  | [], [], _, _, _ => ⟨[], by simp [calcFaceTol], rfl, by simp⟩
  | [], _ :: _, h, _, _ => by simp at h
  | _ :: _, [], h, _, _ => by simp at h
  | f :: fs, cc :: ccs, hlen, hne, hvalid => by
    obtain ⟨ts, hts, htl, hti⟩ := calcFaceTol_aux mag points fs ccs
      (by simpa using hlen) (fun g hg => hne g (List.mem_cons_of_mem _ hg))
      (fun g hg => hvalid g (List.mem_cons_of_mem _ hg))
    obtain ⟨t, ht, hub, hatt⟩ := faceTol_spec mag points f cc
      (hne f (List.mem_cons_self _ _)) (hvalid f (List.mem_cons_self _ _))
    refine ⟨t :: ts, by simp [calcFaceTol, ht, hts], by simp [htl], ?_⟩
    intro i g c hg hc
    cases i with
    | zero =>
      simp only [List.getElem?_cons_zero, Option.some.injEq] at hg hc
      subst hg
      subst hc
      exact ⟨t, by simp, hub, hatt⟩
    | succ j =>
      simp only [List.getElem?_cons_succ] at hg hc
      obtain ⟨u, hu, hrest⟩ := hti j g c hg hc
      exact ⟨u, by simpa using hu, hrest⟩

/-- Claim C5: for every list of faces, each with at least one vertex (and
labels inside the point field), and every list of face centres of the same
length, `calcFaceTol` returns one scalar per face, and entry `i` is the maximum
distance from `faceCentres[i]` to a vertex of face `i`: it bounds the distance
to every vertex and is the distance to one of them, with no scaling. -/
theorem calcFaceTol_spec [LinearOrder S] [Sub S] (mag : Vector S → S) (faces : List face) (points : List (Vector S))
    (faceCentres : List (Vector S))
    (hlen : faces.length = faceCentres.length) (hne : ∀ f ∈ faces, f ≠ [])
    (hvalid : ∀ f ∈ faces, ∀ v ∈ f, v < points.length) :
    ∃ tols, calcFaceTol mag faces points faceCentres = some tols ∧
      tols.length = faces.length ∧
      ∀ (i : Nat) (f : face) (cc : Vector S), faces[i]? = some f → faceCentres[i]? = some cc →
        ∃ t, tols[i]? = some t ∧
          (∀ v ∈ f, ∀ p, points[v]? = some p → mag (p - cc) ≤ t) ∧
          ∃ v ∈ f, ∃ p, points[v]? = some p ∧ t = mag (p - cc) :=
  calcFaceTol_aux mag points faces faceCentres hlen hne hvalid

/-- Two rectangles with corners at distance 5 from their centres: the
hypotheses of `calcFaceTol_spec` hold and both tolerances are 5. -/
theorem calcFaceTol_spec_witness :
    calcFaceTol magInt [[0, 1, 2, 3], [4, 5, 6, 7]]
      [⟨3, 4, 0⟩, ⟨-3, 4, 0⟩, ⟨-3, -4, 0⟩, ⟨3, -4, 0⟩,
        ⟨23, 4, 0⟩, ⟨17, 4, 0⟩, ⟨17, -4, 0⟩, ⟨23, -4, 0⟩]
      [⟨0, 0, 0⟩, ⟨20, 0, 0⟩] = some [5, 5] ∧
    ∃ tols, calcFaceTol magInt [[0, 1, 2, 3], [4, 5, 6, 7]]
      [⟨3, 4, 0⟩, ⟨-3, 4, 0⟩, ⟨-3, -4, 0⟩, ⟨3, -4, 0⟩,
        ⟨23, 4, 0⟩, ⟨17, 4, 0⟩, ⟨17, -4, 0⟩, ⟨23, -4, 0⟩]
      [⟨0, 0, 0⟩, ⟨20, 0, 0⟩] = some tols ∧ tols.length = 2 :=
  ⟨by decide, by
    obtain ⟨tols, h, hl, _⟩ := calcFaceTol_spec magInt [[0, 1, 2, 3], [4, 5, 6, 7]]
      [⟨3, 4, 0⟩, ⟨-3, 4, 0⟩, ⟨-3, -4, 0⟩, ⟨3, -4, 0⟩,
        ⟨23, 4, 0⟩, ⟨17, 4, 0⟩, ⟨17, -4, 0⟩, ⟨23, -4, 0⟩]
      [⟨0, 0, 0⟩, ⟨20, 0, 0⟩] rfl (by decide) (by decide)
    exact ⟨tols, h, hl⟩⟩

/-! ## getRotation -/

/-- Shifting `shiftFace g k` by `k` positions gives `g` back. -/
theorem cyclicShift_shiftFace (g : face) (k : Nat) : cyclicShift (shiftFace g k) k = g := by
  unfold shiftFace cyclicShift
  rw [List.rotate_rotate]
  rcases Nat.eq_zero_or_pos g.length with h0 | h0
  · rw [List.length_eq_zero.mp h0]
    exact List.rotate_nil _
  · have hdm := Nat.div_add_mod k g.length
    have hlt := Nat.mod_lt k h0
    have hmul : g.length - k % g.length + k = g.length * (k / g.length + 1) := by
      rw [Nat.mul_succ]
      omega
    rw [hmul]
    exact List.rotate_length_mul _ _

/-- The tolerance field has one entry per face. -/
theorem calcFaceTol_length [LinearOrder S] [Sub S] (mag : Vector S → S)
    (points : List (Vector S)) :
    ∀ (faces : List face) (faceCentres : List (Vector S)) (tols : List S),
      calcFaceTol mag faces points faceCentres = some tols → tols.length = faces.length
  | [], [], tols, h => by
    simp only [calcFaceTol, Option.some.injEq] at h
    subst h
    rfl
  | [], _ :: _, tols, h => by simp [calcFaceTol] at h
  | _ :: _, [], tols, h => by simp [calcFaceTol] at h
  | f :: fs, cc :: ccs, tols, h => by
    simp only [calcFaceTol] at h
    cases ht : faceTol mag points f cc with
    | none => simp [ht] at h
    | some t =>
      cases hr : calcFaceTol mag fs points ccs with
      | none => simp [ht, hr] at h
      | some ts =>
        simp only [ht, hr, Option.some.injEq] at h
        subst h
        simp [calcFaceTol_length mag points fs ccs ts hr]

/-- When no face failed, every owner face has a match. -/
theorem failedFaces_nil {ms : List (Option (Nat × Nat))} (h : failedFaces ms = []) :
    ∀ m ∈ ms, m.isSome = true := by
  intro m hm
  obtain ⟨i, hi, him⟩ := List.getElem_of_mem hm
  cases m with
  | some _ => rfl
  | none =>
    have hmem : i ∈ failedFaces ms := by
      unfold failedFaces
      rw [List.mem_filter]
      refine ⟨List.mem_range.mpr hi, ?_⟩
      rw [List.getElem?_eq_getElem hi, him]
    rw [h] at hmem
    exact absurd hmem (List.not_mem_nil _)

/-- Dropping the missing entries of a list without missing entries keeps its
length. -/
theorem length_filterMap_id {α : Type} :
    ∀ (ms : List (Option α)), (∀ m ∈ ms, m.isSome = true) →
      (ms.filterMap id).length = ms.length
  | [], _ => rfl
  | none :: _, h => by
    have := h none (List.mem_cons_self _ _)
    simp at this
  | some a :: t, h => by
    have ih := length_filterMap_id t (fun m hm => h m (List.mem_cons_of_mem _ hm))
    simp [List.filterMap_cons, ih]

/-- The flag is `false` exactly when every face maps to itself with rotation
0. -/
theorem orderChanged_eq_false_iff (faceMap rotation : List Nat) :
    orderChanged faceMap rotation = false ↔
      ∀ i, i < faceMap.length → faceMap[i]? = some i ∧ rotation[i]? = some 0 := by
  unfold orderChanged
  rw [List.any_eq_false]
  constructor
  · intro h i hi
    have := h i (List.mem_range.mpr hi)
    simpa using this
  · intro h i hi
    have := h i (List.mem_range.mp hi)
    simp [this.1, this.2]

/-- Claim C3: whenever `order` returns, `faceMap` and `rotation` have one entry
per face and the returned flag is false if and only if `faceMap` is the
identity (`faceMap[i] = i` for every face) and `rotation[i] = 0` for every
face; otherwise the flag is true. -/
theorem order_changed_iff [LinearOrder S] [Sub S] [Mul S] (mag : Vector S → S)
    (centre : List (Vector S) → face → Vector S) (matchTol : S)
    (owner cand : faceGeometrySet S) (c : faceCorrespondence)
    (h : order mag centre matchTol owner cand = .ok c) :
    c.faceMap.length = owner.faces.length ∧ c.rotation.length = owner.faces.length ∧
    (c.changed = false ↔
      ∀ i, i < owner.faces.length → c.faceMap[i]? = some i ∧ c.rotation[i]? = some 0) ∧
    (c.changed = true ↔
      ¬ ∀ i, i < owner.faces.length → c.faceMap[i]? = some i ∧ c.rotation[i]? = some 0) := by
  unfold order at h
  split at h
  · exact absurd h (by simp)
  · dsimp only at h
    split at h
    · rename_i ot ct hot hct
      split at h
      · exact absurd h (by simp)
      · rename_i hfail
        simp only [ne_eq, not_not] at hfail
        simp only [Except.ok.injEq] at h
        have hotl := calcFaceTol_length mag owner.points owner.faces _ ot hot
        have hlen := length_filterMap_id _ (failedFaces_nil hfail)
        simp only [List.length_map, List.length_zip, hotl, Nat.min_self] at hlen
        generalize List.filterMap id (List.map
            (alignFace mag matchTol owner.points cand
              ((List.map (centre cand.points) cand.faces).zip ct))
            (owner.faces.zip ((List.map (centre owner.points) owner.faces).zip ot))) = pairs
          at h hlen
        subst h
        have hfm : ((List.range pairs.length).map
            (fun j => List.indexOf j (List.map Prod.fst pairs))).length =
            owner.faces.length := by
          rw [List.length_map, List.length_range, hlen]
        have hiff := orderChanged_eq_false_iff
          ((List.range pairs.length).map (fun j => List.indexOf j (List.map Prod.fst pairs)))
          (List.map Prod.snd pairs)
        rw [hfm] at hiff
        refine ⟨hfm, by rw [List.length_map, hlen], hiff, ?_⟩
        rw [← hiff]
        simp
    · exact absurd h (by simp)

set_option maxRecDepth 100000 in
/-- Two rectangles ordered against themselves and against a copy with the faces
swapped and their vertices shifted: both orderings return, the first with flag
false, identity `faceMap` and zero `rotation`, the second with flag true. -/
theorem order_changed_iff_witness :
    order magInt centreInt 1
      ⟨[[0, 1, 2, 3], [4, 5, 6, 7]],
      [⟨3, 4, 0⟩, ⟨-3, 4, 0⟩, ⟨-3, -4, 0⟩, ⟨3, -4, 0⟩,
        ⟨23, 4, 0⟩, ⟨17, 4, 0⟩, ⟨17, -4, 0⟩, ⟨23, -4, 0⟩]⟩
      ⟨[[0, 1, 2, 3], [4, 5, 6, 7]],
      [⟨3, 4, 0⟩, ⟨-3, 4, 0⟩, ⟨-3, -4, 0⟩, ⟨3, -4, 0⟩,
        ⟨23, 4, 0⟩, ⟨17, 4, 0⟩, ⟨17, -4, 0⟩, ⟨23, -4, 0⟩]⟩ = .ok ⟨[0, 1], [0, 0], false⟩ ∧
    order magInt centreInt 1
      ⟨[[0, 1, 2, 3], [4, 5, 6, 7]],
      [⟨3, 4, 0⟩, ⟨-3, 4, 0⟩, ⟨-3, -4, 0⟩, ⟨3, -4, 0⟩,
        ⟨23, 4, 0⟩, ⟨17, 4, 0⟩, ⟨17, -4, 0⟩, ⟨23, -4, 0⟩]⟩
      ⟨[[6, 7, 4, 5], [1, 2, 3, 0]],
      [⟨3, 4, 0⟩, ⟨-3, 4, 0⟩, ⟨-3, -4, 0⟩, ⟨3, -4, 0⟩,
        ⟨23, 4, 0⟩, ⟨17, 4, 0⟩, ⟨17, -4, 0⟩, ⟨23, -4, 0⟩]⟩ = .ok ⟨[1, 0], [3, 2], true⟩ ∧
    (∀ i, i < 2 → [0, 1][i]? = some i ∧ [0, 0][i]? = some 0) ∧
    ¬ (∀ i, i < 2 → [1, 0][i]? = some i ∧ [3, 2][i]? = some 0) :=
  ⟨by rfl, by rfl,
    (order_changed_iff magInt centreInt 1
      ⟨[[0, 1, 2, 3], [4, 5, 6, 7]],
      [⟨3, 4, 0⟩, ⟨-3, 4, 0⟩, ⟨-3, -4, 0⟩, ⟨3, -4, 0⟩,
        ⟨23, 4, 0⟩, ⟨17, 4, 0⟩, ⟨17, -4, 0⟩, ⟨23, -4, 0⟩]⟩
      ⟨[[0, 1, 2, 3], [4, 5, 6, 7]],
      [⟨3, 4, 0⟩, ⟨-3, 4, 0⟩, ⟨-3, -4, 0⟩, ⟨3, -4, 0⟩,
        ⟨23, 4, 0⟩, ⟨17, 4, 0⟩, ⟨17, -4, 0⟩, ⟨23, -4, 0⟩]⟩ ⟨[0, 1], [0, 0], false⟩ (by rfl)).2.2.1.mp rfl,
    (order_changed_iff magInt centreInt 1
      ⟨[[0, 1, 2, 3], [4, 5, 6, 7]],
      [⟨3, 4, 0⟩, ⟨-3, 4, 0⟩, ⟨-3, -4, 0⟩, ⟨3, -4, 0⟩,
        ⟨23, 4, 0⟩, ⟨17, 4, 0⟩, ⟨17, -4, 0⟩, ⟨23, -4, 0⟩]⟩
      ⟨[[6, 7, 4, 5], [1, 2, 3, 0]],
      [⟨3, 4, 0⟩, ⟨-3, 4, 0⟩, ⟨-3, -4, 0⟩, ⟨3, -4, 0⟩,
        ⟨23, 4, 0⟩, ⟨17, 4, 0⟩, ⟨17, -4, 0⟩, ⟨23, -4, 0⟩]⟩ ⟨[1, 0], [3, 2], true⟩ (by rfl)).2.2.2.mp rfl⟩

end coupledPolyPatch

end Foam
